import Mathlib

/-!
Verification of `src/dalgebra/commutators/commutator.py` (module `dalgebra.commutators.commutator`).

The module orchestrates three symbolic stages: validation of the arguments of
`GetEquationsForSolution` (lines 131-153), the symbolic pipeline combining the
almost-commuting basis with a flag of fresh constants (lines 156-197), and the two
built-in strategies `generate_polynomial_ansatz` (lines 213-236) and
`generate_polynomial_equations` (lines 243-257).

The differential-algebra substrate (Sage rings, `generic_normal`,
`almost_commuting_wilson`) is external to the file under verification; it is
modelled by an abstract `Substrate` structure whose fields stand for the external
operations, so that the orchestration logic itself is embedded faithfully.
-/

namespace Dalgebra

/-- A Python number argument: either a member of `ZZ` or some non-integer object
(the code tests membership with `not m in ZZ`). -/
inductive PyNum : Type where
  | int (k : Int)
  | nonInt
deriving DecidableEq

/-- A Python dictionary key: an integer or some non-integer object
(line 150 tests `el not in ZZ` on every key). -/
inductive PyKey : Type where
  | int (k : Int)
  | nonInt
deriving DecidableEq

def PyKey.isInt : PyKey → Bool
  | .int _ => true
  | .nonInt => false

def PyKey.toInt : PyKey → Int
  | .int k => k
  | .nonInt => 0

/-- The argument `U` of `GetEquationsForSolution`: Python `None`, a list/tuple,
a dict (modelled as an association list with `PyKey` keys), or an object of any
other type (line 148 raises on those). -/
inductive UArg (R : Type) : Type where
  | pyNone
  | list (l : List R)
  | dict (d : List (PyKey × R))
  | other

def UArg.isNone {R : Type} : UArg R → Bool
  | .pyNone => true
  | _ => false

/-- The features of a candidate base operator `L` that the validation code reads
(lines 134-138): linearity and normal-form flags in the distinguished variable,
its order, and its coefficient for each power of the variable. -/
structure LOp (R : Type) : Type where
  isLinear : Bool
  isNormalForm : Bool
  order : Nat
  coeff : Nat → R

/-- The distinct exception exits of `GetEquationsForSolution`.  `minEmptySeq` is
the untagged `ValueError` that Python's `min` raises on an empty sequence
(reachable from line 150 when `U` is an empty dict); all the others carry a
`[GEFS]`-tagged message. -/
inductive PyError : Type where
  | tooManyArgs        -- line 133
  | notLinear          -- line 135
  | notNormal          -- line 136
  | tooFewArgs         -- line 140
  | badN               -- line 143
  | badM               -- line 144
  | badUSize           -- line 146
  | badUType           -- line 149
  | badUKeys           -- line 151 (KeyError)
  | extractNotCallable -- line 153
  | minEmptySeq        -- `min(U.keys())` on an empty dict, line 150
  | notDRing           -- line 159
deriving DecidableEq

/-- Lines 131-140: resolve the mutually exclusive argument forms.  If `L` is
given, `U` and `n` must be absent, `L` must be linear and in normal form, and
then `n` and `U` are derived from it (`U` becomes the list of the first `n-1`
coefficients).  Otherwise both `U` and `n` must be given. -/
def resolveArgs {R : Type} (L : Option (LOp R)) (n : Option PyNum) (U : UArg R) :
    Except PyError (PyNum × UArg R) :=
  match L with
  | some l =>
      if ¬ U.isNone ∨ n ≠ none then .error .tooManyArgs
      else if ¬ l.isLinear then .error .notLinear
      else if ¬ l.isNormalForm then .error .notNormal
      else .ok (.int (l.order : Int), .list ((List.range (l.order - 1)).map l.coeff))
  | none =>
      match n with
      | none => .error .tooFewArgs
      | some np => if U.isNone then .error .tooFewArgs else .ok (np, U)

/-- The integer keys of a dict argument, in insertion order (`U.keys()`). -/
def keyInts {R : Type} (d : List (PyKey × R)) : List Int :=
  d.map (fun kv => kv.1.toInt)

/-- Lines 143-153: the range checks on `n` and `m`, the shape checks on `U`
(normalising a list into a dict keyed by `0..len-1`), and the callability check
on `extract`.  Returns the validated `(n, m)` and the normalised dict. -/
def checkArgs {R : Type} (m : PyNum) (n : PyNum) (U : UArg R) (extractCallable : Bool) :
    Except PyError (Int × Int × List (Int × R)) :=
  match n with
  | .nonInt => .error .badN
  | .int nv =>
    if nv < 2 then .error .badN
    else match m with
    | .nonInt => .error .badM
    | .int mv =>
      if mv < nv then .error .badM
      else
        let checked : Except PyError (List (Int × R)) :=
          match U with
          | .list l =>
              if (l.length : Int) ≠ nv - 1 then .error .badUSize
              else .ok (l.enum.map (fun p => ((p.1 : Int), p.2)))
          | .dict d =>
              if d.any (fun kv => !kv.1.isInt) then .error .badUKeys
              else match keyInts d with
                | [] => .error .minEmptySeq
                | k :: ks =>
                    if ks.foldl min k < 0 ∨ nv - 2 < ks.foldl max k then .error .badUKeys
                    else .ok (d.map (fun kv => (kv.1.toInt, kv.2)))
          | _ => .error .badUType
        match checked with
        | .error e => .error e
        | .ok ud => if ¬ extractCallable then .error .extractNotCallable else .ok (nv, mv, ud)

/-- Lines 131-153 in one step: argument resolution followed by validation. -/
def validateArgs {R : Type} (m : PyNum) (L : Option (LOp R)) (n : Option PyNum)
    (U : UArg R) (extractCallable : Bool) :
    Except PyError (Int × Int × List (Int × R)) :=
  match resolveArgs L n U with
  | .error e => .error e
  | .ok (np, u2) => checkArgs m np u2 extractCallable

/-- Abstract interface to the external differential-algebra substrate: ring
operations of the extended ring `diff_base`, evaluation of a differential
polynomial at a substitution dictionary (`p(dic=U)`), numerator extraction, the
coercion `diff_base(...)` applied to the user's coefficient values, the named
flag constants, and the external oracle (`generic_normal` and
`almost_commuting_wilson` after `change_ring(diff_base)`). -/
structure Substrate (R : Type) : Type where
  zero : R
  one : R
  add : R → R → R
  mul : R → R → R
  subst : R → List (Nat × R) → R
  numerator : R → R
  toBase : R → R
  Cconst : String → R
  Lgen : Nat → R
  acwP : Nat → Nat → R
  acwH : Nat → Nat → Nat → R

/-- The name of the `i`-th flag constant (`f"{flag_name}_{i}"`, line 168). -/
def flagNameAt (fn : String) (i : Nat) : String := fn ++ "_" ++ toString i

/-- Line 168: the list of `m+1` flag-constant names `flag_name_0 .. flag_name_m`. -/
def flagOfConstants (fn : String) (m : Nat) : List String :=
  (List.range (m + 1)).map (flagNameAt fn)

/-- Line 177: the substitution dictionary, sending the `i`-th generic coefficient
variable (`u[i]`, represented by its slot index) to `diff_base(U.get(i, 0))`. -/
def substDict {R : Type} (S : Substrate R) (n : Nat) (Uget : Nat → Option R) :
    List (Nat × R) :=
  (List.range (n - 1)).map (fun i => (i, S.toBase ((Uget i).getD S.zero)))

/-- Lines 156-197 after validation: the symbolic pipeline of
`GetEquationsForSolution`.  `Ps` and `Hs` are seeded with `1` and the zero
vector of length `n-1` (line 181) and extended by the oracle results for orders
`1..m` (lines 182-185); `P` is `sum(c*p(dic=U) for (c,p) in zip(C, Ps))`
(line 191); `H[j]` is `sum(C[i]*Hs[i][j](dic=U) for i in range(len(C)))`
(line 193); the ideal generators are `sum([extract(h.numerator()) for h in H], [])`
(line 195); the result is `(L(dic=U), P, ideal(H))` (line 197), the ideal being
represented by its list of generators. -/
def computePhase {R : Type} (S : Substrate R) (extract : R → List R) (fn : String)
    (n m : Nat) (Uget : Nat → Option R) : R × R × List R :=
  let U : List (Nat × R) := substDict S n Uget
  let C : List R := (flagOfConstants fn m).map S.Cconst
  let Ps : List R := S.one :: (List.range' 1 m).map (S.acwP n)
  let Hs : List (List R) :=
    (List.replicate (n - 1) S.zero) :: (List.range' 1 m).map (fun i => (List.range (n - 1)).map (S.acwH n i))
  let P : R := ((C.zip Ps).map (fun cp => S.mul cp.1 (S.subst cp.2 U))).foldl S.add S.zero
  let H : List R := (List.range (n - 1)).map (fun j =>
      ((List.range C.length).map
        (fun i => S.mul (C.getD i S.zero) (S.subst ((Hs.getD i []).getD j S.zero) U))).foldl S.add S.zero)
  let Heqs : List R := (H.map (fun h => extract (S.numerator h))).flatten
  (S.subst (S.Lgen n) U, P, Heqs)

/-- Python dict lookup `U.get(i, ...)` on the normalised integer-keyed dict. -/
def lookupInt {R : Type} (d : List (Int × R)) (k : Int) : Option R :=
  (d.find? (fun kv => kv.1 == k)).map (fun kv => kv.2)

/-- Observable events of a run of `GetEquationsForSolution`, in program order:
ring constructions (the pushout of line 157, `add_constants` of line 169), the
calls to the external oracle (`generic_normal` line 163,
`almost_commuting_wilson` line 184), and the `print(u)` statement of line 176
writing to standard output. -/
inductive GEFSEvent : Type where
  | ringConstructed
  | genericNormalCalled (n : Nat)
  | almostCommutingCalled (n i : Nat)
  | printedU
deriving DecidableEq

/-- The full `GetEquationsForSolution` (lines 131-197): validation, the
differential-ring membership check of lines 157-159 (the pushout construction
itself is abstracted into the boolean `parentIsDRing` together with a
`ringConstructed` event), and the symbolic pipeline.  The second component is
the trace of observable events of the run. -/
def GetEquationsForSolution {R : Type} (S : Substrate R) (extract : R → List R)
    (fn : String) (m : PyNum) (L : Option (LOp R)) (n : Option PyNum) (U : UArg R)
    (extractCallable : Bool) (parentIsDRing : Bool) :
    Except PyError (R × R × List R) × List GEFSEvent :=
  match validateArgs m L n U extractCallable with
  | .error e => (.error e, [])
  | .ok (nv, mv, ud) =>
      if ¬ parentIsDRing then (.error .notDRing, [.ringConstructed])
      else
        (.ok (computePhase S extract fn nv.toNat mv.toNat (fun i => lookupInt ud (i : Int))),
         [.ringConstructed, .genericNormalCalled nv.toNat, .ringConstructed, .printedU]
           ++ (List.range' 1 mv.toNat).map (fun i => .almostCommutingCalled nv.toNat i))

/-- A concrete instantiation of the substrate over `ℤ`, used to evaluate the
model at concrete inputs. -/
def trivialSubstrate : Substrate Int where
  zero := 0
  one := 1
  add := fun a b => a + b
  mul := fun a b => a * b
  subst := fun p _ => p
  numerator := fun h => h
  toBase := fun v => v
  Cconst := fun _ => 0
  Lgen := fun _ => 0
  acwP := fun _ _ => 0
  acwH := fun _ _ _ => 0

/-- The commutator `[a, b] = a·b - b·a` of two operators under the
composition-as-multiplication product. -/
def lieBr {A : Type} [Ring A] (a b : A) : A := a * b - b * a

/-- Expressions of the ansatz ring of `generate_polynomial_ansatz` (lines
225-236): the variables `b_{i}_{j}` and `x` adjoined to the base ring, integer
constants (the start value of Python's `sum`), sums, products and powers. -/
inductive AnsatzExpr : Type where
  | bvar (i j : Nat)
  | xvar
  | intC (k : Int)
  | add (p q : AnsatzExpr)
  | mul (p q : AnsatzExpr)
  | pow (p : AnsatzExpr) (k : Nat)
deriving DecidableEq

/-- Evaluation of an ansatz expression in any commutative ring, given values for
the coefficient symbols `b_{i}_{j}` and for the variable `x`. -/
def AnsatzExpr.eval {K : Type} [CommRing K] (bv : Nat → Nat → K) (xv : K) :
    AnsatzExpr → K
  | .bvar i j => bv i j
  | .xvar => xv
  | .intC k => (k : K)
  | .add p q => p.eval bv xv + q.eval bv xv
  | .mul p q => p.eval bv xv * q.eval bv xv
  | .pow p k => (p.eval bv xv) ^ k

/-- The coefficient symbols `b_{i}_{j}` occurring in an ansatz expression,
identified by their index pair `(i, j)`. -/
def AnsatzExpr.bvars : AnsatzExpr → List (Nat × Nat)
  | .bvar i j => [(i, j)]
  | .xvar => []
  | .intC _ => []
  | .add p q => p.bvars ++ q.bvars
  | .mul p q => p.bvars ++ q.bvars
  | .pow p _ => p.bvars

/-- Lines 225-236: `generate_polynomial_ansatz`.  `B[i][j]` is the fresh symbol
`b_{i}_{j}` (line 232), `X[j]` is `x**j` (line 233) and each returned entry is
`sum(b*x for (b,x) in zip(row, X))` (line 236, Python's `sum` starting from the
integer `0`). -/
def generate_polynomial_ansatz (n d : Nat) : List AnsatzExpr :=
  let B : List (List AnsatzExpr) :=
    (List.range (n - 1)).map (fun i => (List.range (d + 1)).map (fun j => AnsatzExpr.bvar i j))
  let X : List AnsatzExpr := (List.range (d + 1)).map (fun j => AnsatzExpr.pow .xvar j)
  B.map (fun row => ((row.zip X).map (fun bx => AnsatzExpr.mul bx.1 bx.2)).foldl .add (.intC 0))

/-- An element of the plain algebraic structure reached by
`generate_polynomial_equations` after stripping the differential structure
(lines 248-249): the flag telling whether its parent is a field other than
`QQ` (line 251), the coefficient vector in `x` of its numerator (line 253)
and its own coefficient vector in `x` (line 256), both in ascending degree. -/
structure AlgElem (K : Type) : Type where
  parentIsFieldNotQQ : Bool
  numerCoeffs : List K
  selfCoeffs : List K

/-- A coefficient of the input differential polynomial, exposing the two access
paths of line 248: `.numerator().wrapped` and `.wrapped`. -/
structure DCoeff (K : Type) : Type where
  numerWrapped : AlgElem K
  wrapped : AlgElem K

/-- The features of an input `H` of `generate_polynomial_equations` that the
code reads: whether the base of `H`'s parent is a `DFractionField` (line 248)
and the first element of `H.coefficients()` — through `.numerator().wrapped`
when the base is a fraction field, through `.wrapped` otherwise.  (`H` is
assumed accepted by the extractor, i.e. `H.coefficients()` is non-empty.) -/
structure DPolyH (K : Type) : Type where
  baseIsDFractionField : Bool
  coeff0 : DCoeff K

/-- Sage's `coefficients()` on a univariate polynomial: the list of its
non-zero coefficients, in ascending degree order. -/
def sageCoefficients {K : Type} [DecidableEq K] [Zero K] (p : List K) : List K :=
  p.filter (fun c => c ≠ 0)

/-- The coefficient vector in `x` that lines 251-256 expand: the numerator's
vector when the collapsed parent is a field other than `QQ`, the element's own
vector otherwise. -/
def collapsedPoly {K : Type} (H : DPolyH K) : List K :=
  let W : AlgElem K := if H.baseIsDFractionField then H.coeff0.numerWrapped else H.coeff0.wrapped
  if W.parentIsFieldNotQQ then W.numerCoeffs else W.selfCoeffs

/-- Lines 243-257: `generate_polynomial_equations`.  Collapse the differential
structure to the first algebraic coefficient (taking the numerator when the base
is a `DFractionField`), then read off the polynomial coefficients with respect
to `x` — of the numerator when the resulting parent is a field other than `QQ`,
of the element itself otherwise. -/
def generate_polynomial_equations {K : Type} [DecidableEq K] [Zero K] (H : DPolyH K) :
    List K :=
  let W : AlgElem K := if H.baseIsDFractionField then H.coeff0.numerWrapped else H.coeff0.wrapped
  if W.parentIsFieldNotQQ then sageCoefficients W.numerCoeffs
  else sageCoefficients W.selfCoeffs

/-- `generate_polynomial_equations` together with its only observable effect,
the `logger.debug` call of line 245, modelled as appending one entry to the log
state it is run in. -/
def generate_polynomial_equations_run {K : Type} [DecidableEq K] [Zero K]
    (H : DPolyH K) (log : List String) : List K × List String :=
  (generate_polynomial_equations H, log ++ ["GenPolyEqus: getting equations"])

/-- Spec step 7: the family combined in the linear combination, `P_0 = 1` and,
for `i ≥ 1`, the oracle's almost-commuting operator of order `i`. -/
def psIdx {R : Type} (S : Substrate R) (n i : Nat) : R :=
  if i = 0 then S.one else S.acwP n i

/-- Spec step 7: the hierarchy family, `H_0 = (0, ..., 0)` and, for `i ≥ 1`,
the `j`-th slot of the oracle's hierarchy vector of order `i`. -/
def hsIdx {R : Type} (S : Substrate R) (n i j : Nat) : R :=
  if i = 0 then S.zero else S.acwH n i j

/-- Spec step 8, written from the spec's words: `P = Σ_{i=0..m} C_i · P_i(substitution)`. -/
def specOperatorP {R : Type} (S : Substrate R) (fn : String) (n m : Nat)
    (Uget : Nat → Option R) : R :=
  ((List.range (m + 1)).map
    (fun i => S.mul (S.Cconst (flagNameAt fn i)) (S.subst (psIdx S n i) (substDict S n Uget)))).foldl
    S.add S.zero

/-- Spec step 8, written from the spec's words: for each hierarchy slot `j`,
`H_j = Σ_{i=0..m} C_i · H_i[j](substitution)`. -/
def specConditionH {R : Type} (S : Substrate R) (fn : String) (n m : Nat)
    (Uget : Nat → Option R) (j : Nat) : R :=
  ((List.range (m + 1)).map
    (fun i => S.mul (S.Cconst (flagNameAt fn i)) (S.subst (hsIdx S n i j) (substDict S n Uget)))).foldl
    S.add S.zero

/-- Spec steps 8-10, written from the spec's words: return
`(L(substitution), P, ideal generated by the concatenation over j of
extract(numerator(H_j)))`. -/
def computePhaseSpec {R : Type} (S : Substrate R) (extract : R → List R) (fn : String)
    (n m : Nat) (Uget : Nat → Option R) : R × R × List R :=
  (S.subst (S.Lgen n) (substDict S n Uget),
   specOperatorP S fn n m Uget,
   ((List.range (n - 1)).map
      (fun j => extract (S.numerator (specConditionH S fn n m Uget j)))).flatten)

lemma range_succ_split (m : Nat) : List.range (m + 1) = 0 :: List.range' 1 m := by
  rw [List.range_eq_range']
  exact List.range'_succ 0 m 1

lemma computePhase_fst {R : Type} (S : Substrate R) (extract : R → List R) (fn : String)
    (n m : Nat) (Uget : Nat → Option R) :
    (computePhase S extract fn n m Uget).1 = S.subst (S.Lgen n) (substDict S n Uget) := rfl

lemma flag_map_constants {R : Type} (fn : String) (m : Nat) (f : String → R) :
    (flagOfConstants fn m).map f = (List.range (m + 1)).map (fun i => f (flagNameAt fn i)) := by
  rw [flagOfConstants, List.map_map]
  rfl

lemma zip_flag_ps {R : Type} (S : Substrate R) (fn : String) (n m : Nat) :
    (((flagOfConstants fn m).map S.Cconst).zip (S.one :: (List.range' 1 m).map (S.acwP n)))
      = (List.range (m + 1)).map (fun i => (S.Cconst (flagNameAt fn i), psIdx S n i)) := by
  rw [flag_map_constants, range_succ_split, List.map_cons, List.map_cons, List.zip_cons_cons,
    List.zip_map', List.map_congr_left]
  · rw [psIdx, if_pos rfl]
  · intro a ha
    have h1 : 1 ≤ a := (List.mem_range'_1.mp ha).1
    have : a ≠ 0 := by omega
    rw [psIdx, if_neg this]

lemma computePhase_P {R : Type} (S : Substrate R) (extract : R → List R) (fn : String)
    (n m : Nat) (Uget : Nat → Option R) :
    (computePhase S extract fn n m Uget).2.1 = specOperatorP S fn n m Uget := by
  show (((((flagOfConstants fn m).map S.Cconst).zip
      (S.one :: (List.range' 1 m).map (S.acwP n))).map
        (fun cp => S.mul cp.1 (S.subst cp.2 (substDict S n Uget)))).foldl S.add S.zero)
    = specOperatorP S fn n m Uget
  rw [zip_flag_ps, List.map_map, specOperatorP]
  rfl

lemma flag_length {R : Type} (S : Substrate R) (fn : String) (m : Nat) :
    ((flagOfConstants fn m).map S.Cconst).length = m + 1 := by
  simp [flagOfConstants]

lemma flag_getD {R : Type} (S : Substrate R) (fn : String) (m i : Nat) (hi : i < m + 1) :
    ((flagOfConstants fn m).map S.Cconst).getD i S.zero = S.Cconst (flagNameAt fn i) := by
  rw [flag_map_constants, List.getD_eq_getElem?_getD, List.getElem?_map,
    List.getElem?_range hi]
  rfl

lemma hs_getD {R : Type} (S : Substrate R) (n m i j : Nat) (hi : i < m + 1) (hj : j < n - 1) :
    ((((List.replicate (n - 1) S.zero) ::
        (List.range' 1 m).map (fun k => (List.range (n - 1)).map (S.acwH n k))).getD i []).getD j S.zero)
      = hsIdx S n i j := by
  match i with
  | 0 =>
      show ((List.replicate (n - 1) S.zero).getD j S.zero) = hsIdx S n 0 j
      rw [List.getD_eq_getElem?_getD, List.getElem?_replicate, hsIdx, if_pos rfl]
      by_cases h : j < n - 1 <;> simp [h]
  | k + 1 =>
      have hk : k < m := by omega
      have hstep : (((List.replicate (n - 1) S.zero) ::
          (List.range' 1 m).map (fun t => (List.range (n - 1)).map (S.acwH n t))).getD (k + 1) [])
          = (List.range (n - 1)).map (S.acwH n (1 + 1 * k)) := by
        simp only [List.getD_eq_getElem?_getD, List.getElem?_cons_succ, List.getElem?_map,
          List.getElem?_range' 1 1 hk, Option.map_some', Option.getD_some]
      rw [hstep, List.getD_eq_getElem?_getD, List.getElem?_map, List.getElem?_range hj,
        Option.map_some', Option.getD_some]
      have heq : 1 + 1 * k = k + 1 := by omega
      rw [heq, hsIdx, if_neg (Nat.succ_ne_zero k)]

lemma computePhase_H_inner {R : Type} (S : Substrate R) (fn : String)
    (n m : Nat) (Uget : Nat → Option R) (j : Nat) (hj : j < n - 1) :
    ((List.range ((flagOfConstants fn m).map S.Cconst).length).map
        (fun i => S.mul (((flagOfConstants fn m).map S.Cconst).getD i S.zero)
          (S.subst ((((List.replicate (n - 1) S.zero) ::
              (List.range' 1 m).map (fun k => (List.range (n - 1)).map (S.acwH n k))).getD i []).getD j S.zero)
            (substDict S n Uget)))).foldl S.add S.zero
      = specConditionH S fn n m Uget j := by
  rw [flag_length, specConditionH]
  congr 1
  apply List.map_congr_left
  intro i hi
  have hilt : i < m + 1 := List.mem_range.mp hi
  rw [flag_getD S fn m i hilt, hs_getD S n m i j hilt hj]

lemma computePhase_gens {R : Type} (S : Substrate R) (extract : R → List R) (fn : String)
    (n m : Nat) (Uget : Nat → Option R) :
    (computePhase S extract fn n m Uget).2.2
      = ((List.range (n - 1)).map
          (fun j => extract (S.numerator (specConditionH S fn n m Uget j)))).flatten := by
  show ((((List.range (n - 1)).map (fun j =>
      ((List.range ((flagOfConstants fn m).map S.Cconst).length).map
        (fun i => S.mul (((flagOfConstants fn m).map S.Cconst).getD i S.zero)
          (S.subst ((((List.replicate (n - 1) S.zero) ::
            (List.range' 1 m).map (fun k => (List.range (n - 1)).map (S.acwH n k))).getD i []).getD j S.zero)
            (substDict S n Uget)))).foldl S.add S.zero)).map
        (fun h => extract (S.numerator h))).flatten) = _
  rw [List.map_map]
  congr 1
  apply List.map_congr_left
  intro j hj
  have hjlt : j < n - 1 := List.mem_range.mp hj
  simp only [Function.comp_apply]
  rw [computePhase_H_inner S fn n m Uget j hjlt]

lemma foldl_min_le_init (l : List Int) : ∀ a : Int, l.foldl min a ≤ a := by
  induction l with
  | nil => intro a; simp
  | cons b t ih =>
      intro a
      calc t.foldl min (min a b) ≤ min a b := ih (min a b)
        _ ≤ a := min_le_left a b

lemma init_le_foldl_max (l : List Int) : ∀ a : Int, a ≤ l.foldl max a := by
  induction l with
  | nil => intro a; simp
  | cons b t ih =>
      intro a
      calc a ≤ max a b := le_max_left a b
        _ ≤ t.foldl max (max a b) := ih (max a b)

lemma foldl_min_le_mem (a x : Int) (l : List Int) (hx : x = a ∨ x ∈ l) :
    l.foldl min a ≤ x := by
  induction l generalizing a with
  | nil =>
      rcases hx with h | h
      · simp [h]
      · cases h
  | cons b t ih =>
      rcases hx with h | h
      · calc t.foldl min (min a b) ≤ min a b := foldl_min_le_init t (min a b)
          _ ≤ a := min_le_left a b
          _ = x := h.symm
      · rcases List.mem_cons.mp h with h | h
        · calc t.foldl min (min a b) ≤ min a b := foldl_min_le_init t (min a b)
            _ ≤ b := min_le_right a b
            _ = x := h.symm
        · exact ih (min a b) (Or.inr h)

lemma mem_le_foldl_max (a x : Int) (l : List Int) (hx : x = a ∨ x ∈ l) :
    x ≤ l.foldl max a := by
  induction l generalizing a with
  | nil =>
      rcases hx with h | h
      · simp [h]
      · cases h
  | cons b t ih =>
      rcases hx with h | h
      · calc x = a := h
          _ ≤ max a b := le_max_left a b
          _ ≤ t.foldl max (max a b) := init_le_foldl_max t (max a b)
      · rcases List.mem_cons.mp h with h | h
        · calc x = b := h
            _ ≤ max a b := le_max_right a b
            _ ≤ t.foldl max (max a b) := init_le_foldl_max t (max a b)
        · exact ih (max a b) (Or.inr h)

lemma le_foldl_min (c a : Int) (l : List Int) (ha : c ≤ a) (hl : ∀ x ∈ l, c ≤ x) :
    c ≤ l.foldl min a := by
  induction l generalizing a with
  | nil => exact ha
  | cons b t ih =>
      exact ih (min a b) (le_min ha (hl b (List.mem_cons_self b t)))
        (fun x hx => hl x (List.mem_cons_of_mem b hx))

lemma foldl_max_le (c a : Int) (l : List Int) (ha : a ≤ c) (hl : ∀ x ∈ l, x ≤ c) :
    l.foldl max a ≤ c := by
  induction l generalizing a with
  | nil => exact ha
  | cons b t ih =>
      exact ih (max a b) (max_le ha (hl b (List.mem_cons_self b t)))
        (fun x hx => hl x (List.mem_cons_of_mem b hx))

/-- Claim C2: `GetEquationsForSolution` computes `P` as `Σ_{i=0..m} C_i · P_i`
evaluated at the substitution `U` (with `P_0 = 1`, `H_0` the zero vector of
length `n-1`, and missing mapping slots of `U` defaulting to zero), computes
`H_j` for `j = 0..n-2` as `Σ_i C_i · H_i[j]` evaluated at `U`, and returns the
triple `(L` evaluated at `U`, `P`, ideal generated by the concatenation over `j`
of `extract` applied to the numerator of `H_j)`. -/
theorem computePhase_refines_spec {R : Type} (S : Substrate R) (extract : R → List R)
    (fn : String) (n m : Nat) (Uget : Nat → Option R) :
    computePhase S extract fn n m Uget = computePhaseSpec S extract fn n m Uget :=
  Prod.ext (computePhase_fst S extract fn n m Uget)
    (Prod.ext (computePhase_P S extract fn n m Uget)
      (computePhase_gens S extract fn n m Uget))

/-- Claim C3 (refuted by the code): a run of `GetEquationsForSolution` that
passes validation executes the `print(u)` statement of line 176, writing to
standard output — so the function does perform I/O on successful runs. -/
theorem GEFS_prints_to_stdout :
    GEFSEvent.printedU ∈ (GetEquationsForSolution trivialSubstrate (fun h => [h]) "c"
      (.int 2) none (some (.int 2)) (.dict [(.int 0, (0 : Int))]) true true).2 := by
  decide

/-- Claim C4: calling with both `L` and either of `U` or `n` raises an error,
and calling with neither `L` nor the complete pair `(U, n)` raises an error; in
both cases the error is raised before any symbolic construction begins (the
event trace of the run is empty). -/
theorem GEFS_mutual_exclusivity {R : Type} (S : Substrate R) (extract : R → List R)
    (fn : String) (m : PyNum) (n : Option PyNum) (U : UArg R) (xc pr : Bool) :
    (∀ l : LOp R, (U.isNone = false ∨ n ≠ none) →
        GetEquationsForSolution S extract fn m (some l) n U xc pr
          = (.error .tooManyArgs, []))
    ∧ ((U.isNone = true ∨ n = none) →
        GetEquationsForSolution S extract fn m none n U xc pr
          = (.error .tooFewArgs, [])) := by
  constructor
  · intro l h
    have hc : ¬ U.isNone = true ∨ n ≠ none := by
      rcases h with h | h
      · exact Or.inl (by simp [h])
      · exact Or.inr h
    simp only [GetEquationsForSolution, validateArgs, resolveArgs, if_pos hc]
  · intro h
    match n, h with
    | none, _ =>
        simp only [GetEquationsForSolution, validateArgs, resolveArgs]
    | some np, h =>
        have hU : U.isNone = true := by
          rcases h with h | h
          · exact h
          · exact absurd h (by simp)
        simp only [GetEquationsForSolution, validateArgs, resolveArgs, if_pos hU]

theorem GEFS_mutual_exclusivity_witness :
    GetEquationsForSolution trivialSubstrate (fun h => [h]) "c" (.int 2)
        (some ⟨true, true, 2, fun _ => 0⟩) (some (.int 2)) (.dict [(.int 0, (0 : Int))]) true true
      = (.error .tooManyArgs, [])
    ∧ GetEquationsForSolution trivialSubstrate (fun h => [h]) "c" (.int 2)
        none none (.list [(0 : Int)]) true true
      = (.error .tooFewArgs, []) :=
  ⟨(GEFS_mutual_exclusivity trivialSubstrate (fun h => [h]) "c" (.int 2)
      (some (.int 2)) (.dict [(.int 0, (0 : Int))]) true true).1
      ⟨true, true, 2, fun _ => 0⟩ (Or.inr (by simp)),
   (GEFS_mutual_exclusivity trivialSubstrate (fun h => [h]) "c" (.int 2)
      none (.list [(0 : Int)]) true true).2 (Or.inr rfl)⟩

/-- Claim C9: with a valid `n ≥ 2` and `m ≥ n` but `U` supplied as an empty
mapping, `GetEquationsForSolution` neither proceeds to the computation (the
event trace is empty) nor raises the tagged `KeyError` of line 151: validation
fails with the untagged error from taking `min` of the empty key collection. -/
theorem GEFS_empty_mapping_min_error {R : Type} (S : Substrate R) (extract : R → List R)
    (fn : String) (nv mv : Int) (hn : 2 ≤ nv) (hm : nv ≤ mv) (xc pr : Bool) :
    GetEquationsForSolution S extract fn (.int mv) none (some (.int nv))
        (.dict ([] : List (PyKey × R))) xc pr = (.error .minEmptySeq, [])
      ∧ PyError.minEmptySeq ≠ PyError.badUKeys := by
  have h2 : ¬ nv < 2 := by omega
  have h3 : ¬ mv < nv := by omega
  refine ⟨?_, by decide⟩
  simp only [GetEquationsForSolution, validateArgs, resolveArgs, checkArgs, keyInts,
    UArg.isNone, if_neg h2, if_neg h3, List.any_nil, List.map_nil, Bool.false_eq_true,
    if_false]

theorem GEFS_empty_mapping_min_error_witness :
    GetEquationsForSolution trivialSubstrate (fun h => [h]) "c" (.int 2) none
        (some (.int 2)) (.dict ([] : List (PyKey × Int))) true true
      = (.error .minEmptySeq, [])
    ∧ PyError.minEmptySeq ≠ PyError.badUKeys :=
  GEFS_empty_mapping_min_error trivialSubstrate (fun h => [h]) "c" 2 2
    (by decide) (by decide) true true

/-- Claim C5: for integer `n ≥ 2`, a call with `m = n` passes validation, and
the flag of constants has `m+1` entries named `flag_name_0 .. flag_name_m` (so
size `n+1` at `m = n`); a call with `m = n-1`, and any `m` that is not an
integer at least `n`, raises the validation error of line 144. -/
theorem GEFS_order_bound_and_flag {R : Type} (fn : String) (nv : Int) (hn : 2 ≤ nv)
    (l : List R) (hl : (l.length : Int) = nv - 1) :
    (validateArgs (R := R) (.int nv) none (some (.int nv)) (.list l) true).isOk = true
    ∧ (∀ mN : Nat, (flagOfConstants fn mN).length = mN + 1)
    ∧ (flagOfConstants fn nv.toNat).length = nv.toNat + 1
    ∧ (∀ mN i : Nat, i < mN + 1 → (flagOfConstants fn mN).getD i "" = fn ++ "_" ++ toString i)
    ∧ validateArgs (R := R) (.int (nv - 1)) none (some (.int nv)) (.list l) true
        = .error .badM
    ∧ (∀ mPy : PyNum, (∀ k : Int, mPy = .int k → k < nv) →
        validateArgs (R := R) mPy none (some (.int nv)) (.list l) true = .error .badM) := by
  have h2 : ¬ nv < 2 := by omega
  have hmm : ¬ nv < nv := by omega
  have hlen : ¬ (l.length : Int) ≠ nv - 1 := by simp [hl]
  refine ⟨?_, ?_, ?_, ?_, ?_, ?_⟩
  · simp [validateArgs, resolveArgs, checkArgs, UArg.isNone, if_neg h2, if_neg hmm,
      if_neg hlen, Except.isOk, Except.toBool]
  · intro mN; simp [flagOfConstants]
  · simp [flagOfConstants]
  · intro mN i hi
    rw [flagOfConstants, List.getD_eq_getElem?_getD, List.getElem?_map,
      List.getElem?_range hi]
    rfl
  · have hlt : nv - 1 < nv := by omega
    simp [validateArgs, resolveArgs, checkArgs, UArg.isNone, if_neg h2, if_pos hlt]
  · intro mPy hk
    match mPy with
    | .nonInt => simp [validateArgs, resolveArgs, checkArgs, UArg.isNone, if_neg h2]
    | .int k =>
        have hlt : k < nv := hk k rfl
        simp [validateArgs, resolveArgs, checkArgs, UArg.isNone, if_neg h2, if_pos hlt]

theorem GEFS_order_bound_and_flag_witness :
    (validateArgs (R := Int) (.int 2) none (some (.int 2)) (.list [(0 : Int)]) true).isOk = true
    ∧ (flagOfConstants "c" 2).length = 2 + 1
    ∧ validateArgs (R := Int) (.int (2 - 1)) none (some (.int 2)) (.list [(0 : Int)]) true
        = .error .badM
    ∧ validateArgs (R := Int) .nonInt none (some (.int 2)) (.list [(0 : Int)]) true
        = .error .badM :=
  have h := GEFS_order_bound_and_flag "c" 2 (by decide) [(0 : Int)] (by decide)
  ⟨h.1, h.2.1 2, h.2.2.2.2.1,
   h.2.2.2.2.2 .nonInt (fun k hk => by cases hk)⟩

/-- Claim C6: `U` given as a list of length other than `n-1` raises the
validation error of line 146; as a mapping with a non-integer key, or with an
integer key outside `[0, n-2]`, it raises the `KeyError` of line 151; gaps in
the mapping's keys are permitted (any non-empty mapping with integer keys inside
the range passes validation). -/
theorem GEFS_U_shape_validation {R : Type} (nv mv : Int) (hn : 2 ≤ nv) (hm : nv ≤ mv) :
    (∀ l : List R, (l.length : Int) ≠ nv - 1 →
        validateArgs (.int mv) none (some (.int nv)) (.list l) true = .error .badUSize)
    ∧ (∀ d : List (PyKey × R), (∃ kv ∈ d, kv.1.isInt = false) →
        validateArgs (.int mv) none (some (.int nv)) (.dict d) true = .error .badUKeys)
    ∧ (∀ d : List (PyKey × R), d ≠ [] → (∀ kv ∈ d, kv.1.isInt = true) →
        (∃ kv ∈ d, kv.1.toInt < 0 ∨ nv - 2 < kv.1.toInt) →
        validateArgs (.int mv) none (some (.int nv)) (.dict d) true = .error .badUKeys)
    ∧ (∀ d : List (PyKey × R), d ≠ [] →
        (∀ kv ∈ d, kv.1.isInt = true ∧ 0 ≤ kv.1.toInt ∧ kv.1.toInt ≤ nv - 2) →
        (validateArgs (.int mv) none (some (.int nv)) (.dict d) true).isOk = true) := by
  have h2 : ¬ nv < 2 := by omega
  have h3 : ¬ mv < nv := by omega
  refine ⟨?_, ?_, ?_, ?_⟩
  · intro l hlen
    simp [validateArgs, resolveArgs, checkArgs, UArg.isNone, if_neg h2, if_neg h3,
      if_pos hlen]
  · intro d hex
    have hany : d.any (fun kv => !kv.1.isInt) = true := by
      rw [List.any_eq_true]
      obtain ⟨kv, hkv, hfalse⟩ := hex
      exact ⟨kv, hkv, by simp [hfalse]⟩
    simp [validateArgs, resolveArgs, checkArgs, UArg.isNone, if_neg h2, if_neg h3, hany]
  · intro d hne hall hex
    have hany : d.any (fun kv => !kv.1.isInt) = false := by
      rw [List.any_eq_false]
      intro kv hkv
      simp [hall kv hkv]
    match d, hne with
    | kv0 :: rest, _ =>
        have hkeys : keyInts (kv0 :: rest) = kv0.1.toInt :: keyInts rest := rfl
        have hcond : (keyInts rest).foldl min kv0.1.toInt < 0
            ∨ nv - 2 < (keyInts rest).foldl max kv0.1.toInt := by
          obtain ⟨kv, hkv, hout⟩ := hex
          have hxmem : kv.1.toInt = kv0.1.toInt ∨ kv.1.toInt ∈ keyInts rest := by
            rcases List.mem_cons.mp hkv with h | h
            · exact Or.inl (by rw [h])
            · exact Or.inr (List.mem_map_of_mem (fun kv => kv.1.toInt) h)
          rcases hout with hout | hout
          · exact Or.inl (lt_of_le_of_lt
              (foldl_min_le_mem kv0.1.toInt kv.1.toInt (keyInts rest) hxmem) hout)
          · exact Or.inr (lt_of_lt_of_le hout
              (mem_le_foldl_max kv0.1.toInt kv.1.toInt (keyInts rest) hxmem))
        simp [validateArgs, resolveArgs, checkArgs, UArg.isNone, if_neg h2, if_neg h3,
          hany, hkeys, if_pos hcond]
  · intro d hne hall
    have hany : d.any (fun kv => !kv.1.isInt) = false := by
      rw [List.any_eq_false]
      intro kv hkv
      simp [(hall kv hkv).1]
    match d, hne with
    | kv0 :: rest, _ =>
        have hkeys : keyInts (kv0 :: rest) = kv0.1.toInt :: keyInts rest := rfl
        have hrest : ∀ x ∈ keyInts rest, 0 ≤ x ∧ x ≤ nv - 2 := by
          intro x hx
          obtain ⟨kv, hkv, hxe⟩ := List.mem_map.mp hx
          exact hxe ▸ ⟨(hall kv (List.mem_cons_of_mem kv0 hkv)).2.1,
            (hall kv (List.mem_cons_of_mem kv0 hkv)).2.2⟩
        have hmin : ¬ ((keyInts rest).foldl min kv0.1.toInt < 0
            ∨ nv - 2 < (keyInts rest).foldl max kv0.1.toInt) := by
          push_neg
          constructor
          · exact le_foldl_min 0 kv0.1.toInt (keyInts rest)
              (hall kv0 (List.mem_cons_self kv0 rest)).2.1
              (fun x hx => (hrest x hx).1)
          · exact foldl_max_le (nv - 2) kv0.1.toInt (keyInts rest)
              (hall kv0 (List.mem_cons_self kv0 rest)).2.2
              (fun x hx => (hrest x hx).2)
        simp [validateArgs, resolveArgs, checkArgs, UArg.isNone, if_neg h2, if_neg h3,
          hany, hkeys, if_neg hmin, Except.isOk, Except.toBool]

theorem GEFS_U_shape_validation_witness :
    validateArgs (.int 2) none (some (.int 2)) (.list ([] : List Int)) true
      = .error .badUSize
    ∧ validateArgs (.int 2) none (some (.int 2)) (.dict [(PyKey.nonInt, (0 : Int))]) true
      = .error .badUKeys
    ∧ validateArgs (.int 2) none (some (.int 2)) (.dict [(PyKey.int 5, (0 : Int))]) true
      = .error .badUKeys
    ∧ (validateArgs (.int 3) none (some (.int 3)) (.dict [(PyKey.int 1, (0 : Int))]) true).isOk
      = true :=
  have h2 := GEFS_U_shape_validation (R := Int) 2 2 (by decide) (by decide)
  have h3 := GEFS_U_shape_validation (R := Int) 3 3 (by decide) (by decide)
  ⟨h2.1 [] (by decide),
   h2.2.1 [(PyKey.nonInt, (0 : Int))] ⟨(PyKey.nonInt, (0 : Int)), by simp, rfl⟩,
   h2.2.2.1 [(PyKey.int 5, (0 : Int))] (by simp)
     (fun kv hkv => by simp at hkv; subst hkv; decide)
     ⟨(PyKey.int 5, (0 : Int)), by simp, Or.inr (by decide)⟩,
   h3.2.2.2 [(PyKey.int 1, (0 : Int))] (by simp)
     (fun kv hkv => by simp at hkv; subst hkv; decide)⟩

lemma list_range_map_sum {M : Type} [AddCommMonoid M] (f : Nat → M) (k : Nat) :
    ((List.range k).map f).sum = ∑ j ∈ Finset.range k, f j := by
  induction k with
  | zero => simp
  | succ t ih => rw [List.range_succ, Finset.sum_range_succ, List.map_append, List.sum_append, ih]; simp

lemma flatten_map_singleton {α β : Type} (l : List α) (f : α → β) :
    (l.map (fun x => [f x])).flatten = l.map f := by
  induction l with
  | nil => rfl
  | cons a t ih => simp [ih]

lemma gpa_entry (n d i : Nat) (hi : i < n - 1) :
    (generate_polynomial_ansatz n d).getD i (.intC 0)
      = ((List.range (d + 1)).map
          (fun j => AnsatzExpr.mul (.bvar i j) (.pow .xvar j))).foldl .add (.intC 0) := by
  show (((List.range (n - 1)).map
      (fun i => (List.range (d + 1)).map (fun j => AnsatzExpr.bvar i j))).map
        (fun row => ((row.zip ((List.range (d + 1)).map
            (fun j => AnsatzExpr.pow AnsatzExpr.xvar j))).map
          (fun bx => AnsatzExpr.mul bx.1 bx.2)).foldl AnsatzExpr.add
            (AnsatzExpr.intC 0))).getD i (AnsatzExpr.intC 0)
    = ((List.range (d + 1)).map
        (fun j => AnsatzExpr.mul (.bvar i j) (.pow .xvar j))).foldl .add (.intC 0)
  rw [List.map_map, List.getD_eq_getElem?_getD, List.getElem?_map, List.getElem?_range hi,
    Option.map_some', Option.getD_some]
  show ((((List.range (d + 1)).map (fun j => AnsatzExpr.bvar i j)).zip
      ((List.range (d + 1)).map (fun j => AnsatzExpr.pow AnsatzExpr.xvar j))).map
        (fun bx => AnsatzExpr.mul bx.1 bx.2)).foldl AnsatzExpr.add (AnsatzExpr.intC 0)
    = ((List.range (d + 1)).map
        (fun j => AnsatzExpr.mul (.bvar i j) (.pow .xvar j))).foldl .add (.intC 0)
  rw [List.zip_map', List.map_map]
  rfl

lemma eval_foldl_add {K : Type} [CommRing K] (bv : Nat → Nat → K) (xv : K)
    (l : List AnsatzExpr) :
    ∀ a : AnsatzExpr, (l.foldl AnsatzExpr.add a).eval bv xv
      = a.eval bv xv + (l.map (fun e => e.eval bv xv)).sum := by
  induction l with
  | nil => intro a; simp
  | cons e t ih =>
      intro a
      rw [List.foldl_cons, ih (a.add e)]
      show (a.add e).eval bv xv + _ = _
      rw [AnsatzExpr.eval]
      simp
      ring

lemma bvars_foldl_add (l : List AnsatzExpr) :
    ∀ a : AnsatzExpr, (l.foldl AnsatzExpr.add a).bvars
      = a.bvars ++ (l.map AnsatzExpr.bvars).flatten := by
  induction l with
  | nil => intro a; simp
  | cons e t ih =>
      intro a
      rw [List.foldl_cons, ih (a.add e)]
      show (a.bvars ++ e.bvars) ++ _ = _
      simp

lemma gpa_entry_eval {K : Type} [CommRing K] (n d i : Nat) (hi : i < n - 1)
    (bv : Nat → Nat → K) (xv : K) :
    ((generate_polynomial_ansatz n d).getD i (.intC 0)).eval bv xv
      = ∑ j ∈ Finset.range (d + 1), bv i j * xv ^ j := by
  rw [gpa_entry n d i hi, eval_foldl_add, List.map_map]
  show (AnsatzExpr.intC 0).eval bv xv + _ = _
  rw [AnsatzExpr.eval]
  have : ((AnsatzExpr.eval bv xv) ∘ fun j => AnsatzExpr.mul (.bvar i j) (.pow .xvar j))
      = fun j => bv i j * xv ^ j := by
    funext j
    rfl
  rw [this, list_range_map_sum]
  simp

lemma gpa_entry_bvars (n d i : Nat) (hi : i < n - 1) :
    ((generate_polynomial_ansatz n d).getD i (.intC 0)).bvars
      = (List.range (d + 1)).map (fun j => (i, j)) := by
  rw [gpa_entry n d i hi, bvars_foldl_add, List.map_map]
  show (AnsatzExpr.intC 0).bvars ++ _ = _
  rw [AnsatzExpr.bvars]
  have : (AnsatzExpr.bvars ∘ fun j => AnsatzExpr.mul (.bvar i j) (.pow .xvar j))
      = fun j => [(i, j)] := by
    funext j
    rfl
  rw [this, flatten_map_singleton]
  rfl

/-- Claim C7: `generate_polynomial_ansatz` returns a list of exactly `n-1`
expressions; for every base (commutative) ring, the `i`-th entry evaluates to
`Σ_{j=0..d} b_{i,j} · x^j`; each entry mentions only the coefficient symbols of
its own slot (block-diagonal structure); in particular at `n = 3`, `d = 1` the
two returned entries are linear in `x` and share no coefficient symbol. -/
theorem generate_polynomial_ansatz_spec (n d : Nat) (hn : 2 ≤ n) :
    (generate_polynomial_ansatz n d).length = n - 1
    ∧ (∀ i, i < n - 1 → ∀ (K : Type) [CommRing K], ∀ (bv : Nat → Nat → K) (xv : K),
        ((generate_polynomial_ansatz n d).getD i (.intC 0)).eval bv xv
          = ∑ j ∈ Finset.range (d + 1), bv i j * xv ^ j)
    ∧ (∀ i, i < n - 1 → ∀ v ∈ ((generate_polynomial_ansatz n d).getD i (.intC 0)).bvars,
        v.1 = i)
    ∧ (generate_polynomial_ansatz 3 1).length = 2
    ∧ (∀ (K : Type) [CommRing K], ∀ (bv : Nat → Nat → K) (xv : K),
        ((generate_polynomial_ansatz 3 1).getD 0 (.intC 0)).eval bv xv
            = bv 0 0 + bv 0 1 * xv
        ∧ ((generate_polynomial_ansatz 3 1).getD 1 (.intC 0)).eval bv xv
            = bv 1 0 + bv 1 1 * xv)
    ∧ (∀ v ∈ ((generate_polynomial_ansatz 3 1).getD 0 (.intC 0)).bvars,
        ∀ w ∈ ((generate_polynomial_ansatz 3 1).getD 1 (.intC 0)).bvars, v ≠ w) := by
  refine ⟨?_, ?_, ?_, ?_, ?_, ?_⟩
  · simp [generate_polynomial_ansatz]
  · intro i hi K instK bv xv
    exact gpa_entry_eval n d i hi bv xv
  · intro i hi v hv
    rw [gpa_entry_bvars n d i hi] at hv
    obtain ⟨j, hj, hje⟩ := List.mem_map.mp hv
    rw [← hje]
  · decide
  · intro K instK bv xv
    constructor
    · rw [gpa_entry_eval 3 1 0 (by decide) bv xv]
      simp [Finset.sum_range_succ]
    · rw [gpa_entry_eval 3 1 1 (by decide) bv xv]
      simp [Finset.sum_range_succ]
  · decide

theorem generate_polynomial_ansatz_spec_witness :
    (generate_polynomial_ansatz 3 1).length = 3 - 1
    ∧ ((generate_polynomial_ansatz 3 1).getD 0 (.intC 0)).eval
        (fun i j => (10 * (i : Int) + (j : Int))) 7
        = ∑ j ∈ Finset.range (1 + 1), (10 * ((0 : Nat) : Int) + (j : Int)) * 7 ^ j :=
  have h := generate_polynomial_ansatz_spec 3 1 (by decide)
  ⟨h.1, h.2.1 0 (by decide) Int (fun i j => (10 * (i : Int) + (j : Int))) 7⟩

/-- Claim C8: the polynomial extractor is a pure, deterministic function with no
hidden state — running it a second time on the same expression, in the state
left behind by the first run, returns the same list of equations. -/
theorem generate_polynomial_equations_idempotent {K : Type} [DecidableEq K] [Zero K]
    (H : DPolyH K) (log : List String) :
    (generate_polynomial_equations_run H (generate_polynomial_equations_run H log).2).1
      = (generate_polynomial_equations_run H log).1 := rfl

lemma gpe_eq_sage {K : Type} [DecidableEq K] [Zero K] (H : DPolyH K) :
    generate_polynomial_equations H = sageCoefficients (collapsedPoly H) := by
  by_cases h1 : H.baseIsDFractionField <;>
    [by_cases h2 : H.coeff0.numerWrapped.parentIsFieldNotQQ;
     by_cases h2 : H.coeff0.wrapped.parentIsFieldNotQQ] <;>
    simp [generate_polynomial_equations, collapsedPoly, h1, h2]

/-- Claim C10: `generate_polynomial_equations` returns only the nonzero
coefficients of the expanded polynomial in `x`: every returned entry is
nonzero, an identically zero collapsed polynomial yields the empty list, the
returned list never exceeds the coefficient vector in length, and it can be
strictly shorter than `degree+1` because zero coefficients are omitted. -/
theorem generate_polynomial_equations_nonzero {K : Type} [DecidableEq K] [Zero K]
    (H : DPolyH K) :
    ((∀ c ∈ generate_polynomial_equations H, ¬ c = 0)
      ∧ ((∀ c ∈ collapsedPoly H, c = 0) → generate_polynomial_equations H = [])
      ∧ (generate_polynomial_equations H).length ≤ (collapsedPoly H).length)
    ∧ ∃ H0 : DPolyH Int, (collapsedPoly H0).length = 2
        ∧ (generate_polynomial_equations H0).length = 1 := by
  refine ⟨⟨?_, ?_, ?_⟩, ?_⟩
  · intro c hc
    rw [gpe_eq_sage] at hc
    have := (List.mem_filter.mp hc).2
    simpa using this
  · intro hall
    rw [gpe_eq_sage, sageCoefficients, List.filter_eq_nil]
    intro c hc
    simp [hall c hc]
  · rw [gpe_eq_sage]
    exact List.length_filter_le _ _
  · refine ⟨⟨false, ⟨⟨false, [], []⟩, ⟨false, [], [(0 : Int), 5]⟩⟩⟩, by decide, by decide⟩

theorem generate_polynomial_equations_nonzero_witness :
    generate_polynomial_equations
        (⟨false, ⟨⟨false, [], []⟩, ⟨false, [], [(0 : Int), 0]⟩⟩⟩ : DPolyH Int) = [] :=
  (generate_polynomial_equations_nonzero
      (⟨false, ⟨⟨false, [], []⟩, ⟨false, [], [(0 : Int), 0]⟩⟩⟩ : DPolyH Int)).1.2.1
    (by decide)

lemma ev_foldl_add {R A : Type} [Ring A] (S : Substrate R) (ev : R → A)
    (hadd : ∀ a b, ev (S.add a b) = ev a + ev b) (l : List R) :
    ∀ init : R, ev (l.foldl S.add init) = ev init + (l.map ev).sum := by
  induction l with
  | nil => intro init; simp
  | cons x t ih =>
      intro init
      rw [List.foldl_cons, ih (S.add init x), hadd]
      simp [add_assoc]

lemma lieBr_one {A : Type} [Ring A] (a : A) : lieBr a 1 = 0 := by
  simp [lieBr]

lemma lieBr_smul_right {A : Type} [Ring A] (a c p : A) (hc : ∀ x, c * x = x * c) :
    lieBr a (c * p) = c * lieBr a p := by
  rw [lieBr, lieBr, mul_sub]
  congr 1
  · rw [← mul_assoc, ← hc a, mul_assoc]
  · rw [mul_assoc]

lemma lieBr_sum {A : Type} [Ring A] (a : A) (s : Finset Nat) (f : Nat → A) :
    lieBr a (∑ i ∈ s, f i) = ∑ i ∈ s, lieBr a (f i) := by
  simp only [lieBr, Finset.mul_sum, Finset.sum_mul, Finset.sum_sub_distrib]

lemma bracket_vanishes {A : Type} [Ring A] (M N : Nat) (Lv : A)
    (c p : Nat → A) (hvv : Nat → Nat → A) (D : Nat → A)
    (hcen : ∀ i x, c i * x = x * c i)
    (hbr : ∀ i ∈ Finset.range (M + 1),
        lieBr Lv (p i) = ∑ j ∈ Finset.range N, hvv i j * D j)
    (hHz : ∀ j, j < N → ∑ i ∈ Finset.range (M + 1), c i * hvv i j = 0) :
    lieBr Lv (∑ i ∈ Finset.range (M + 1), c i * p i) = 0 := by
  rw [lieBr_sum]
  calc ∑ i ∈ Finset.range (M + 1), lieBr Lv (c i * p i)
      = ∑ i ∈ Finset.range (M + 1), c i * lieBr Lv (p i) :=
        Finset.sum_congr rfl (fun i _ => lieBr_smul_right Lv (c i) (p i) (hcen i))
    _ = ∑ i ∈ Finset.range (M + 1), c i * ∑ j ∈ Finset.range N, hvv i j * D j :=
        Finset.sum_congr rfl (fun i hi => by rw [hbr i hi])
    _ = ∑ i ∈ Finset.range (M + 1), ∑ j ∈ Finset.range N, c i * (hvv i j * D j) :=
        Finset.sum_congr rfl (fun i _ => Finset.mul_sum _ _ _)
    _ = ∑ j ∈ Finset.range N, ∑ i ∈ Finset.range (M + 1), c i * (hvv i j * D j) :=
        Finset.sum_comm
    _ = ∑ j ∈ Finset.range N, (∑ i ∈ Finset.range (M + 1), c i * hvv i j) * D j := by
        apply Finset.sum_congr rfl
        intro j _
        rw [Finset.sum_mul]
        apply Finset.sum_congr rfl
        intro i _
        rw [mul_assoc]
    _ = ∑ j ∈ Finset.range N, (0 : A) * D j :=
        Finset.sum_congr rfl (fun j hj => by rw [hHz j (Finset.mem_range.mp hj)])
    _ = 0 := by simp

/-- Claim C1: for valid `n ≥ 2`, `m ≥ n` and `U` with keys in `0..n-2`, the
equations returned by `GetEquationsForSolution` are sufficient for commutation:
for any interpretation `ev` of the symbolic ring into an operator algebra that
respects sums, products by the flag constants (which are central), the `extract`
contract of lines 110-111 and numerator vanishing, and under the
almost-commuting property of the oracle (modelled from the spec: the commutator
of the instantiated `L` with each instantiated basis element `P_i` equals
`Σ_j H_i[j] · ∂^j`), any common root of the returned ideal's generators makes
the commutator `[L, P]` of the returned operators vanish. -/
theorem GEFS_equations_sufficient {R A : Type} [Ring A] (S : Substrate R)
    (extract : R → List R) (fn : String) (n m : Nat) (hn : 2 ≤ n) (hm : n ≤ m)
    (Uget : Nat → Option R) (ev : R → A) (D : Nat → A)
    (hadd : ∀ a b, ev (S.add a b) = ev a + ev b)
    (hzero : ev S.zero = 0)
    (hone : ev S.one = 1)
    (hsub1 : ∀ u, S.subst S.one u = S.one)
    (hsub0 : ∀ u, S.subst S.zero u = S.zero)
    (hmulC : ∀ s a, ev (S.mul (S.Cconst s) a) = ev (S.Cconst s) * ev a)
    (hcentral : ∀ s a, ev (S.Cconst s) * a = a * ev (S.Cconst s))
    (hacw : ∀ i, 1 ≤ i → i ≤ m →
        lieBr (ev (S.subst (S.Lgen n) (substDict S n Uget)))
            (ev (S.subst (S.acwP n i) (substDict S n Uget)))
          = ∑ j ∈ Finset.range (n - 1),
              ev (S.subst (S.acwH n i j) (substDict S n Uget)) * D j)
    (hextract : ∀ h, (∀ g ∈ extract h, ev g = 0) → ev h = 0)
    (hnumer : ∀ h, ev (S.numerator h) = 0 → ev h = 0)
    (hroot : ∀ g ∈ (computePhase S extract fn n m Uget).2.2, ev g = 0) :
    lieBr (ev (computePhase S extract fn n m Uget).1)
        (ev (computePhase S extract fn n m Uget).2.1) = 0 := by
  have hevP : ev (computePhase S extract fn n m Uget).2.1
      = ∑ i ∈ Finset.range (m + 1),
          ev (S.Cconst (flagNameAt fn i)) * ev (S.subst (psIdx S n i) (substDict S n Uget)) := by
    rw [computePhase_P, specOperatorP, ev_foldl_add S ev hadd, hzero, zero_add, List.map_map]
    have hfun : (ev ∘ fun i => S.mul (S.Cconst (flagNameAt fn i))
          (S.subst (psIdx S n i) (substDict S n Uget)))
        = fun i => ev (S.Cconst (flagNameAt fn i))
            * ev (S.subst (psIdx S n i) (substDict S n Uget)) :=
      funext (fun i => hmulC _ _)
    rw [hfun, list_range_map_sum]
  have hevH : ∀ j, ev (specConditionH S fn n m Uget j)
      = ∑ i ∈ Finset.range (m + 1),
          ev (S.Cconst (flagNameAt fn i)) * ev (S.subst (hsIdx S n i j) (substDict S n Uget)) := by
    intro j
    rw [specConditionH, ev_foldl_add S ev hadd, hzero, zero_add, List.map_map]
    have hfun : (ev ∘ fun i => S.mul (S.Cconst (flagNameAt fn i))
          (S.subst (hsIdx S n i j) (substDict S n Uget)))
        = fun i => ev (S.Cconst (flagNameAt fn i))
            * ev (S.subst (hsIdx S n i j) (substDict S n Uget)) :=
      funext (fun i => hmulC _ _)
    rw [hfun, list_range_map_sum]
  have hHzero : ∀ j, j < n - 1 → ev (specConditionH S fn n m Uget j) = 0 := by
    intro j hj
    apply hnumer
    apply hextract
    intro g hg
    apply hroot
    rw [computePhase_gens, List.mem_flatten]
    exact ⟨extract (S.numerator (specConditionH S fn n m Uget j)),
      List.mem_map_of_mem _ (List.mem_range.mpr hj), hg⟩
  rw [computePhase_fst, hevP]
  apply bracket_vanishes m (n - 1) (ev (S.subst (S.Lgen n) (substDict S n Uget)))
      (fun i => ev (S.Cconst (flagNameAt fn i)))
      (fun i => ev (S.subst (psIdx S n i) (substDict S n Uget)))
      (fun i j => ev (S.subst (hsIdx S n i j) (substDict S n Uget))) D
  · intro i x
    exact hcentral (flagNameAt fn i) x
  · intro i hi
    match i with
    | 0 =>
        have hp0 : ev (S.subst (psIdx S n 0) (substDict S n Uget)) = 1 := by
          rw [psIdx, if_pos rfl, hsub1, hone]
        have hv0 : ∀ j, ev (S.subst (hsIdx S n 0 j) (substDict S n Uget)) = 0 := by
          intro j
          rw [hsIdx, if_pos rfl, hsub0, hzero]
        show lieBr _ (ev (S.subst (psIdx S n 0) (substDict S n Uget))) = _
        rw [hp0, lieBr_one]
        symm
        apply Finset.sum_eq_zero
        intro j _
        show ev (S.subst (hsIdx S n 0 j) (substDict S n Uget)) * D j = 0
        rw [hv0 j, zero_mul]
    | k + 1 =>
        have h2 : k + 1 ≤ m := by
          have := Finset.mem_range.mp hi
          omega
        have hps : psIdx S n (k + 1) = S.acwP n (k + 1) := by
          rw [psIdx, if_neg (Nat.succ_ne_zero k)]
        have hhs : ∀ j, hsIdx S n (k + 1) j = S.acwH n (k + 1) j := by
          intro j
          rw [hsIdx, if_neg (Nat.succ_ne_zero k)]
        show lieBr _ (ev (S.subst (psIdx S n (k + 1)) (substDict S n Uget))) = _
        rw [hps]
        rw [hacw (k + 1) (by omega) h2]
        apply Finset.sum_congr rfl
        intro j _
        show ev (S.subst (S.acwH n (k + 1) j) (substDict S n Uget)) * D j
          = ev (S.subst (hsIdx S n (k + 1) j) (substDict S n Uget)) * D j
        rw [hhs j]
  · intro j hj
    have := hevH j
    rw [← this]
    exact hHzero j hj

theorem GEFS_equations_sufficient_witness :
    lieBr ((fun r => r) ((computePhase trivialSubstrate (fun h => [h]) "c" 2 2
          (fun _ => none)).1))
        ((fun r => r) ((computePhase trivialSubstrate (fun h => [h]) "c" 2 2
          (fun _ => none)).2.1)) = 0 :=
  GEFS_equations_sufficient trivialSubstrate (fun h => [h]) "c" 2 2 (by decide) (by decide)
    (fun _ => none) (fun r => r) (fun _ => 0)
    (fun _ _ => rfl) rfl rfl (fun _ => rfl) (fun _ => rfl) (fun _ _ => rfl)
    (fun s a => by simp [trivialSubstrate])
    (fun i _ _ => by simp [lieBr, trivialSubstrate])
    (fun h hg => hg h (by simp))
    (fun h hh => hh)
    (by decide)

end Dalgebra
